import Mathlib

/-!
Shallow embedding of the memo-node daemon (Rust) for checking its
natural-language specification.  Definitions are translated from the
source files under src/: storage.rs, sync/peer.rs, audio/decoder.rs,
audio/ble.rs, transcribe.rs and main.rs.
-/

namespace MemoNode

/-- Mirror of `Transcription` in src/storage.rs. -/
structure Transcription where
  id : String
  timestamp : Int
  text : String
  source_node : String
  memo_device_id : Option String
  synced : Bool
deriving DecidableEq, Repr

/-- Mirror of `Peer` in src/storage.rs. -/
structure Peer where
  node_id : String
  last_seen : Int
  last_sync_timestamp : Int
deriving DecidableEq, Repr

/-- The SQLite database of src/storage.rs, modelled as the two tables:
`transcriptions` (primary key `id`) and `peers` (primary key `node_id`).
Each table is a list of rows; the by-key upserts below remove any row with
the same key and append the new row. -/
structure Storage where
  transcriptions : List Transcription
  peers : List Peer
deriving DecidableEq, Repr

/-- `Storage::insert_transcription`: `INSERT OR REPLACE` keyed by `id`
(src/storage.rs lines 66-82). -/
def Storage.insert_transcription (s : Storage) (t : Transcription) : Storage :=
  { s with transcriptions := s.transcriptions.filter (fun u => u.id ≠ t.id) ++ [t] }

/-- `Storage::get_transcriptions_since`: `SELECT ... WHERE timestamp > ?1
ORDER BY timestamp ASC` (src/storage.rs lines 84-106). -/
def Storage.get_transcriptions_since (s : Storage) (since : Int) : List Transcription :=
  (s.transcriptions.filter (fun t => since < t.timestamp)).mergeSort
    (fun a b => a.timestamp ≤ b.timestamp)

/-- `Storage::upsert_peer`: `INSERT OR REPLACE` keyed by `node_id`
(src/storage.rs lines 154-163). -/
def Storage.upsert_peer (s : Storage) (p : Peer) : Storage :=
  { s with peers := s.peers.filter (fun q => q.node_id ≠ p.node_id) ++ [p] }

/-- `Storage::get_peer`: `SELECT ... FROM peers WHERE node_id = ?1`
(src/storage.rs lines 186-204). -/
def Storage.get_peer (s : Storage) (node_id : String) : Option Peer :=
  s.peers.find? (fun p => p.node_id = node_id)

/-- The wire record of the replication RPC (proto `Transcription` in
src/sync/peer.rs): `memo_device_id` is a plain string, empty meaning absent. -/
structure ProtoTranscription where
  id : String
  timestamp : Int
  text : String
  source_node : String
  memo_device_id : String
deriving DecidableEq, Repr

/-- Decoding of a wire record into a stored `Transcription`, as done in both
`PeerSyncServer::push_transcriptions` and `PeerManager::sync_with_peer`
(src/sync/peer.rs lines 123-134 and 238-249): empty `memo_device_id`
becomes `None`, and `synced` is set to `true`. -/
def decodeWire (p : ProtoTranscription) : Transcription :=
  { id := p.id
    timestamp := p.timestamp
    text := p.text
    source_node := p.source_node
    memo_device_id := if p.memo_device_id = "" then none else some p.memo_device_id
    synced := true }

/-- Inserting the decoded form of each wire record into the store, in
stream order (the insert performed per iteration of the pull loop in
`PeerManager::sync_with_peer` and of the push loop in
`PeerSyncServer::push_transcriptions`). -/
def insertAll (s : Storage) (records : List ProtoTranscription) : Storage :=
  records.foldl (fun st r => st.insert_transcription (decodeWire r)) s

/-- The cursor that `PeerManager::sync_with_peer` resolves for a peer:
`storage.get_peer(node_id).map(|p| p.last_sync_timestamp).unwrap_or(0)`
(src/sync/peer.rs lines 216-221). -/
def peerCursor (s : Storage) (node_id : String) : Int :=
  ((s.get_peer node_id).map Peer.last_sync_timestamp).getD 0

/-- The running maximum computed over the pulled stream in
`PeerManager::sync_with_peer` (src/sync/peer.rs lines 234-259):
`latest_timestamp` starts at the cursor and is bumped whenever
`proto_t.timestamp > latest_timestamp`. -/
def streamMax (since : Int) (records : List ProtoTranscription) : Int :=
  records.foldl (fun latest r => if r.timestamp > latest then r.timestamp else latest) since

/-- Outcome of one pull-sync round against a peer.  `ok records` is a round
whose stream completed and whose cursor upsert succeeded.  `failAfter records`
is a round that failed (connect, stream, or storage error) after having
inserted the decoded records received so far; the early return via `?`
skips the cursor upsert (src/sync/peer.rs lines 209-281). -/
inductive RoundResult where
  | ok : List ProtoTranscription → RoundResult
  | failAfter : List ProtoTranscription → RoundResult
deriving DecidableEq, Repr

/-- One pull-sync round of `PeerManager::sync_with_peer` against the peer
`pid`, acting on the local store: decode and insert each pulled record with
`synced = true`, track the running maximum timestamp, and on success upsert
the peer cursor with it; on failure leave the peers table untouched
(src/sync/peer.rs lines 209-281). -/
def syncRound (s : Storage) (pid : String) (now : Int) : RoundResult → Storage
  | .ok records =>
      let last_sync := peerCursor s pid
      (insertAll s records).upsert_peer
        { node_id := pid, last_seen := now, last_sync_timestamp := streamMax last_sync records }
  | .failAfter records => insertAll s records

/-- A sequence of pull-sync rounds against the same peer, each with its own
wall-clock reading and outcome. -/
def syncRounds (s : Storage) (pid : String) (rounds : List (Int × RoundResult)) : Storage :=
  rounds.foldl (fun st r => syncRound st pid r.1 r.2) s

/-- One iteration of the `PeerSyncServer::push_transcriptions` loop
(src/sync/peer.rs lines 111-149): decode the wire record, upsert it into
the store, append it to the fan-out broadcast, and bump the `received`
count. -/
def pushStep (acc : Storage × List Transcription × Nat) (p : ProtoTranscription) :
    Storage × List Transcription × Nat :=
  let t := decodeWire p
  (acc.1.insert_transcription t, acc.2.1 ++ [t], acc.2.2 + 1)

/-- `PeerSyncServer::push_transcriptions` over a client stream that
completes without error: fold `pushStep` over the received wire records.
Returns the final store, the list of records sent to the fan-out channel,
and the `received` count of the response. -/
def push_transcriptions (s : Storage) (records : List ProtoTranscription) :
    Storage × List Transcription × Nat :=
  records.foldl pushStep (s, [], 0)

/-! ## Opus bundle decoder (src/audio/decoder.rs)

The per-frame opus decode is the external `audiopus` library; it is kept
abstract as a state-threading function `step : D → List Nat → D × Option (List Int)`
where `some pcm` is a successful decode (already truncated to the decoded
sample count) and `none` a per-frame decode failure.  Bytes are modelled as
`Nat` (values 0-255 on the wire; only `< 256` facts are never needed). -/

/-- The frame loop of `OpusDecoder::decode` (src/audio/decoder.rs lines
60-109), recursing on the number of frames still to read.  `data` is
`bundle_data` (the input minus the bundle-index byte) and `offset` starts
at 1, past the frame-count byte.  A read past the end or a frame whose
declared size overruns the bundle stops the loop, keeping what was decoded;
a zero-size frame is skipped; a failed per-frame decode contributes no
samples. -/
def decodeLoop {D : Type} (step : D → List Nat → D × Option (List Int)) :
    Nat → D → List Nat → Nat → D × List Int
  | 0, dec, _, _ => (dec, [])
  | k + 1, dec, data, offset =>
      if data.length ≤ offset then (dec, [])
      else
        let frame_size := data.getD offset 0
        if frame_size = 0 then decodeLoop step k dec data (offset + 1)
        else if data.length < offset + 1 + frame_size then (dec, [])
        else
          let frame_data := (data.drop (offset + 1)).take frame_size
          let r := step dec frame_data
          let rest := decodeLoop step k r.1 data (offset + 1 + frame_size)
          (rest.1, r.2.getD [] ++ rest.2)

/-- `OpusDecoder::decode` (src/audio/decoder.rs lines 32-111).  The Rust
function returns `Result<Vec<i16>>` and every return site is `Ok`;
the `Except` wrapper mirrors that type. -/
def opusDecode {D : Type} (step : D → List Nat → D × Option (List Int)) (dec : D)
    (encoded : List Nat) : Except String (D × List Int) :=
  if encoded = [] then .ok (dec, [])
  else if encoded.length < 2 then .ok (dec, [])
  else
    let bundle_data := encoded.drop 1
    if bundle_data = [] then .ok (dec, [])
    else
      let num_frames := bundle_data.getD 0 0
      if num_frames = 0 ∨ 10 < num_frames then .ok (dec, [])
      else .ok (decodeLoop step num_frames dec bundle_data 1)

/-- The PCM samples produced by `opusDecode` (the decoder state and the
impossible error branch dropped). -/
def decodeSamples {D : Type} (step : D → List Nat → D × Option (List Int)) (dec : D)
    (encoded : List Nat) : List Int :=
  match opusDecode step dec encoded with
  | .ok r => r.2
  | .error _ => []

/-- The frame payloads that the loop of `OpusDecoder::decode` extracts from
`bundle_data`, in order: the same walk as `decodeLoop`, collecting the byte
slices handed to the per-frame decoder. -/
def bundleFrames : Nat → List Nat → Nat → List (List Nat)
  | 0, _, _ => []
  | k + 1, data, offset =>
      if data.length ≤ offset then []
      else
        let frame_size := data.getD offset 0
        if frame_size = 0 then bundleFrames k data (offset + 1)
        else if data.length < offset + 1 + frame_size then []
        else (data.drop (offset + 1)).take frame_size :: bundleFrames k data (offset + 1 + frame_size)

/-- Feeding a list of frame payloads through the per-frame decoder in order,
concatenating the PCM of the successful decodes. -/
def runFrames {D : Type} (step : D → List Nat → D × Option (List Int)) (dec : D) :
    List (List Nat) → D × List Int
  | [] => (dec, [])
  | f :: fs =>
      let r := step dec f
      let rest := runFrames step r.1 fs
      (rest.1, r.2.getD [] ++ rest.2)

/-! ## Utterance gating (src/transcribe.rs) and the decoder task gate
(src/main.rs) -/

/-- The loop state of `WhisperTranscriber::start`: the sample accumulator
and the latched `was_recording` copy of the shared flag. -/
structure GateState where
  buffer : List Int
  was_recording : Bool
deriving DecidableEq, Repr

/-- One iteration of the `WhisperTranscriber::start` loop
(src/transcribe.rs lines 65-159) on either an incoming chunk
(`chunk = some c`) or the 100 ms timer tick (`chunk = none`), with `flag`
the value read from the shared `is_recording` atomic: if recording just
stopped and the accumulator is non-empty, emit it and clear; append the
chunk only while recording; latch the flag. -/
def gateStep (st : GateState) (flag : Bool) (chunk : Option (List Int)) :
    GateState × Option (List Int) :=
  let emit : Option (List Int) :=
    if st.was_recording && !flag && !st.buffer.isEmpty then some st.buffer else none
  let buf1 := if emit.isSome then [] else st.buffer
  let buf2 := if flag then buf1 ++ chunk.getD [] else buf1
  ({ buffer := buf2, was_recording := flag }, emit)

/-- Running the `WhisperTranscriber::start` loop over a sequence of events,
each carrying the flag value read at that event; collects the emitted
utterances in order. -/
def gateRun (st : GateState) : List (Bool × Option (List Int)) → GateState × List (List Int)
  | [] => (st, [])
  | (flag, chunk) :: rest =>
      let r := gateStep st flag chunk
      let rest2 := gateRun r.1 rest
      (rest2.1, r.2.toList ++ rest2.2)

/-- The channel-close branch of `WhisperTranscriber::start`
(src/transcribe.rs lines 105-126): on `None` from the audio channel the
final buffer is transcribed only when `was_recording && !is_recording_now`
and the buffer is non-empty; then the loop breaks. -/
def gateClose (st : GateState) (flag : Bool) : Option (List Int) :=
  if st.was_recording && !flag && !st.buffer.isEmpty then some st.buffer else none

/-- The decoder task gate in `start_daemon` (src/main.rs lines 191-214):
a decoded chunk is forwarded to the transcriber only when the shared
`is_recording` flag is set and the decode produced samples. -/
def decoderGate (is_rec : Bool) (decoded : List Int) : Option (List Int) :=
  if !is_rec then none
  else if decoded.isEmpty then none
  else some decoded

/-! ## Control debounce (src/audio/ble.rs) -/

/-- The debounce filter of `BleAudioReceiver::subscribe_to_control`
(src/audio/ble.rs lines 258-289): `last` is `last_control_value`; a value
equal to it is skipped, any other value is recorded and acted upon.
Returns the acted-upon values in order. -/
def processControl : Option Nat → List Nat → List Nat
  | _, [] => []
  | last, v :: rest =>
      if last = some v then processControl last rest
      else v :: processControl (some v) rest

/-- The fields of `BleAudioReceiver` relevant to the shared recording flag
(src/audio/ble.rs lines 25-31); channel endpoints are not modelled. -/
structure BleAudioReceiver where
  service_uuid : Nat
  characteristic_uuid : Nat
  is_recording : Bool
  connected_devices : List String
deriving DecidableEq, Repr

/-- `BleAudioReceiver::new` (src/audio/ble.rs lines 34-52): the shared
`is_recording` atomic is created as `AtomicBool::new(true)` and the
connected-device set empty. -/
def BleAudioReceiver.new (service_uuid characteristic_uuid : Nat) : BleAudioReceiver :=
  { service_uuid := service_uuid
    characteristic_uuid := characteristic_uuid
    is_recording := true
    connected_devices := [] }

/-! ## Helper lemmas -/

lemma filter_filter_self {α : Type} (p : α → Bool) (l : List α) :
    (l.filter p).filter p = l.filter p := by
  simp [List.filter_filter]

/-! ## Claim theorems -/

/-- C2: `insert_transcription` is idempotent by `id`: for every store state
and every transcription record, inserting it twice in succession leaves the
store in exactly the same state as inserting it once. -/
theorem insert_transcription_idem (s : Storage) (t : Transcription) :
    (s.insert_transcription t).insert_transcription t = s.insert_transcription t := by
  simp only [Storage.insert_transcription, List.filter_append]
  rw [filter_filter_self]
  simp

/-- C3: `get_transcriptions_since ts` returns exactly the stored records
whose timestamp is strictly greater than `ts` (as a permutation of the
filtered table, hence the same multiset), ordered ascending by timestamp,
and every returned record has timestamp different from `ts`. -/
theorem get_transcriptions_since_spec (s : Storage) (ts : Int) :
    (s.get_transcriptions_since ts).Perm
        (s.transcriptions.filter (fun t => ts < t.timestamp))
    ∧ (∀ t, t ∈ s.get_transcriptions_since ts ↔ t ∈ s.transcriptions ∧ ts < t.timestamp)
    ∧ List.Pairwise (fun a b => a.timestamp ≤ b.timestamp) (s.get_transcriptions_since ts)
    ∧ (∀ t, t ∈ s.get_transcriptions_since ts → t.timestamp ≠ ts) := by
  have hperm : (s.get_transcriptions_since ts).Perm
      (s.transcriptions.filter (fun t => ts < t.timestamp)) :=
    List.mergeSort_perm _ _
  have hmem : ∀ t, t ∈ s.get_transcriptions_since ts ↔
      t ∈ s.transcriptions ∧ ts < t.timestamp := by
    intro t
    rw [hperm.mem_iff, List.mem_filter]
    simp
  refine ⟨hperm, hmem, ?_, ?_⟩
  · have h := @List.sorted_mergeSort Transcription
      (fun a b : Transcription => decide (a.timestamp ≤ b.timestamp))
      (fun a b c hab hbc => by
        simp only [decide_eq_true_eq] at *
        exact le_trans hab hbc)
      (fun a b => by
        simp only [Bool.or_eq_true, decide_eq_true_eq]
        exact le_total a.timestamp b.timestamp)
      (s.transcriptions.filter (fun t => ts < t.timestamp))
    exact h.imp (fun hab => by simpa using hab)
  · intro t ht
    have := (hmem t).mp ht
    exact ne_of_gt this.2

/-- C9: the control debounce of the audio source acts only on values that
differ from the last acted-upon value, so the acted-upon sequence has no
two equal consecutive values. -/
theorem processControl_chain (vs : List Nat) :
    List.Chain' (fun a b => a ≠ b) (processControl none vs) := by
  have key : ∀ (ws : List Nat) (a : Nat),
      List.Chain' (fun x y => x ≠ y) (processControl (some a) ws)
      ∧ ∀ h, (processControl (some a) ws).head? = some h → h ≠ a := by
    intro ws
    induction ws with
    | nil => intro a; simp [processControl]
    | cons v rest ih =>
      intro a
      by_cases hav : a = v
      · subst hav
        simpa [processControl] using ih a
      · have hne : ¬ (some a = some v) := by simpa using hav
        refine ⟨?_, ?_⟩
        · rw [processControl, if_neg hne]
          rw [List.chain'_cons']
          refine ⟨?_, (ih v).1⟩
          intro b hb
          exact Ne.symm ((ih v).2 b hb)
        · intro h hh
          rw [processControl, if_neg hne] at hh
          simp only [List.head?_cons, Option.some.injEq] at hh
          subst hh
          exact fun hc => hav hc.symm
  cases vs with
  | nil => simp [processControl]
  | cons v rest =>
    have hstep : processControl none (v :: rest) = v :: processControl (some v) rest := by
      simp [processControl]
    rw [hstep, List.chain'_cons']
    refine ⟨?_, (key rest v).1⟩
    intro b hb
    exact Ne.symm ((key rest v).2 b hb)

/-- C10: `BleAudioReceiver::new` initializes the shared recording flag to
`true`, so before any device event the decoder task forwards non-empty
decoded chunks and the utterance gate appends incoming chunks to its
accumulator without emitting. -/
theorem ble_initial_recording (su cu : Nat) :
    (BleAudioReceiver.new su cu).is_recording = true
    ∧ (∀ decoded : List Int, decoded ≠ [] → decoderGate true decoded = some decoded)
    ∧ (∀ (st : GateState) (chunk : List Int),
        (gateStep st true (some chunk)).1.buffer = st.buffer ++ chunk
        ∧ (gateStep st true (some chunk)).2 = none) := by
  refine ⟨rfl, ?_, ?_⟩
  · intro decoded hne
    simp [decoderGate, hne]
  · intro st chunk
    simp [gateStep]

/-- Witness for C3 at a concrete store: the record with timestamp 3 is
returned by `get_transcriptions_since 1` and its timestamp differs from 1. -/
theorem get_transcriptions_since_spec_witness :
    ({ id := "a", timestamp := 3, text := "x", source_node := "n",
       memo_device_id := none, synced := false } : Transcription).timestamp ≠ 1 :=
  (get_transcriptions_since_spec
      ⟨[⟨"a", 3, "x", "n", none, false⟩, ⟨"b", 1, "y", "n", none, true⟩], []⟩ 1).2.2.2
    ⟨"a", 3, "x", "n", none, false⟩
    (((get_transcriptions_since_spec
        ⟨[⟨"a", 3, "x", "n", none, false⟩, ⟨"b", 1, "y", "n", none, true⟩], []⟩ 1).2.1
      ⟨"a", 3, "x", "n", none, false⟩).mpr
      ⟨List.mem_cons_self _ _, by decide⟩)

/-- Witness for C10 at concrete inputs: the fresh receiver records `true`,
the decoder gate forwards `[1]`, and the gate appends `[2]` to an empty
accumulator. -/
theorem ble_initial_recording_witness :
    (BleAudioReceiver.new 0 0).is_recording = true
    ∧ decoderGate true [1] = some [1]
    ∧ (gateStep ⟨[], true⟩ true (some [2])).1.buffer = [2] :=
  ⟨(ble_initial_recording 0 0).1,
   (ble_initial_recording 0 0).2.1 [1] (by decide),
   by simpa using ((ble_initial_recording 0 0).2.2 ⟨[], true⟩ [2]).1⟩

/-- The S4 scenario of the spec: flag trace F,F,T,T,T,F,F,T,F with one
sample chunk per step, samples a..i rendered as 1..9. -/
def s4Events : List (Bool × Option (List Int)) :=
  [(false, some [1]), (false, some [2]), (true, some [3]), (true, some [4]), (true, some [5]),
   (false, some [6]), (false, some [7]), (true, some [8]), (false, some [9])]

/-- Counterexample for C5: on the S4 trace the gating loop does not emit
the utterances [b,c,d,e] and [h] (that is, [[2,3,4,5],[8]]): chunk b
arrives while the flag still reads F and is dropped. -/
theorem s4_claim_false :
    (gateRun ⟨[], false⟩ s4Events).2 ≠ [[2, 3, 4, 5], [8]] := by
  decide

/-- C5 (amended): on the S4 trace the gating loop emits exactly the two
utterances [c,d,e] and [h] (that is, [[3,4,5],[8]]); samples received
while the flag is F, including chunk b, are dropped. -/
theorem s4_amended :
    (gateRun ⟨[], false⟩ s4Events).2 = [[3, 4, 5], [8]] := by
  decide

/-- Counterexample for C8: with a non-empty accumulator but the recording
flag still reading true at channel close, the loop emits nothing. -/
theorem close_claim_false :
    gateClose ⟨[1], true⟩ true = none ∧ ([1] : List Int) ≠ [] := by
  decide

/-- C8 (amended): on channel close the loop emits the pending accumulator
only when the latched `was_recording` is true, the flag reads false, and
the accumulator is non-empty; if the flag still reads true, or
`was_recording` is false, it exits without emitting. -/
theorem gateClose_spec (st : GateState) (flag : Bool) :
    (flag = true → gateClose st flag = none)
    ∧ (st.was_recording = true → flag = false → st.buffer ≠ [] →
        gateClose st flag = some st.buffer)
    ∧ (st.was_recording = false → gateClose st flag = none) := by
  refine ⟨?_, ?_, ?_⟩
  · intro h; subst h; simp [gateClose]
  · intro h1 h2 h3; subst h2; simp [gateClose, h1, h3]
  · intro h; simp [gateClose, h]

/-- Witness for the amended C8 at a concrete state: a pending `[5]` with
`was_recording = true` and flag false is emitted. -/
theorem gateClose_spec_witness :
    gateClose ⟨[5], true⟩ false = some [5] :=
  (gateClose_spec ⟨[5], true⟩ false).2.1 rfl rfl (by decide)

/-! ## Helper lemmas for the sync claims -/

lemma insert_transcription_peers (s : Storage) (t : Transcription) :
    (s.insert_transcription t).peers = s.peers := rfl

lemma insertAll_cons (s : Storage) (r : ProtoTranscription) (rest : List ProtoTranscription) :
    insertAll s (r :: rest) = insertAll (s.insert_transcription (decodeWire r)) rest := rfl

lemma insertAll_peers (records : List ProtoTranscription) :
    ∀ s : Storage, (insertAll s records).peers = s.peers := by
  induction records with
  | nil => intro s; rfl
  | cons r rest ih =>
    intro s
    rw [insertAll_cons, ih, insert_transcription_peers]

lemma get_peer_upsert_self (s : Storage) (p : Peer) :
    (s.upsert_peer p).get_peer p.node_id = some p := by
  unfold Storage.upsert_peer Storage.get_peer
  simp only [List.find?_append]
  have h1 : (s.peers.filter (fun q => q.node_id ≠ p.node_id)).find?
      (fun q => q.node_id = p.node_id) = none := by
    rw [List.find?_eq_none]
    intro x hx
    have hx2 := (List.mem_filter.mp hx).2
    simp only [ne_eq, decide_not, Bool.not_eq_eq_eq_not, Bool.not_true,
      decide_eq_false_iff_not] at hx2
    simpa using hx2
  rw [h1]
  simp [List.find?]

lemma peerCursor_upsert_self (s : Storage) (p : Peer) :
    peerCursor (s.upsert_peer p) p.node_id = p.last_sync_timestamp := by
  simp [peerCursor, get_peer_upsert_self]

lemma peerCursor_insertAll (s : Storage) (records : List ProtoTranscription) (pid : String) :
    peerCursor (insertAll s records) pid = peerCursor s pid := by
  unfold peerCursor Storage.get_peer
  rw [insertAll_peers]

lemma if_gt_eq_max (a b : Int) : (if b > a then b else a) = max a b := by
  rw [max_def]
  split_ifs <;> omega

lemma streamMax_cons (since : Int) (r : ProtoTranscription) (rest : List ProtoTranscription) :
    streamMax since (r :: rest) = streamMax (max since r.timestamp) rest := by
  simp only [streamMax, List.foldl_cons, if_gt_eq_max]

lemma streamMax_eq_foldl_max (records : List ProtoTranscription) :
    ∀ since : Int,
      streamMax since records = (records.map ProtoTranscription.timestamp).foldl max since := by
  induction records with
  | nil => intro since; rfl
  | cons r rest ih =>
    intro since
    rw [streamMax_cons, ih, List.map_cons, List.foldl_cons]

lemma le_streamMax (records : List ProtoTranscription) :
    ∀ since : Int, since ≤ streamMax since records := by
  induction records with
  | nil => intro since; exact le_refl since
  | cons r rest ih =>
    intro since
    rw [streamMax_cons]
    exact le_trans (le_max_left since r.timestamp) (ih (max since r.timestamp))

lemma syncRound_ok_cursor (s : Storage) (pid : String) (now : Int)
    (rs : List ProtoTranscription) :
    peerCursor (syncRound s pid now (.ok rs)) pid = streamMax (peerCursor s pid) rs := by
  unfold syncRound
  exact peerCursor_upsert_self (insertAll s rs)
    { node_id := pid, last_seen := now, last_sync_timestamp := streamMax (peerCursor s pid) rs }

lemma syncRound_fail_cursor (s : Storage) (pid : String) (now : Int)
    (rs : List ProtoTranscription) :
    peerCursor (syncRound s pid now (.failAfter rs)) pid = peerCursor s pid := by
  unfold syncRound
  exact peerCursor_insertAll s rs pid

lemma syncRound_cursor_le (s : Storage) (pid : String) (now : Int) (res : RoundResult) :
    peerCursor s pid ≤ peerCursor (syncRound s pid now res) pid := by
  cases res with
  | ok rs => rw [syncRound_ok_cursor]; exact le_streamMax rs (peerCursor s pid)
  | failAfter rs => rw [syncRound_fail_cursor]

lemma syncRounds_cursor_le (pid : String) (rounds : List (Int × RoundResult)) :
    ∀ s : Storage, peerCursor s pid ≤ peerCursor (syncRounds s pid rounds) pid := by
  induction rounds with
  | nil => intro s; exact le_refl _
  | cons r rest ih =>
    intro s
    have hstep : syncRounds s pid (r :: rest) = syncRounds (syncRound s pid r.1 r.2) pid rest :=
      rfl
    rw [hstep]
    exact le_trans (syncRound_cursor_le s pid r.1 r.2) (ih (syncRound s pid r.1 r.2))

/-- C1: across pull-sync rounds against a peer, the stored cursor is
monotone non-decreasing: a successful round writes back the maximum of the
old cursor and all received record timestamps, a failed round leaves the
cursor unchanged, every single round can only raise the cursor, and so can
any sequence of rounds. -/
theorem sync_cursor_monotone (s : Storage) (pid : String) (now : Int) :
    (∀ rs, peerCursor (syncRound s pid now (.ok rs)) pid
        = (rs.map ProtoTranscription.timestamp).foldl max (peerCursor s pid))
    ∧ (∀ rs, peerCursor (syncRound s pid now (.failAfter rs)) pid = peerCursor s pid)
    ∧ (∀ res, peerCursor s pid ≤ peerCursor (syncRound s pid now res) pid)
    ∧ (∀ rounds : List (Int × RoundResult),
        peerCursor s pid ≤ peerCursor (syncRounds s pid rounds) pid) := by
  refine ⟨?_, ?_, ?_, ?_⟩
  · intro rs
    rw [syncRound_ok_cursor, streamMax_eq_foldl_max]
  · intro rs
    exact syncRound_fail_cursor s pid now rs
  · intro res
    exact syncRound_cursor_le s pid now res
  · intro rounds
    exact syncRounds_cursor_le pid rounds s

/-! ## Helper lemmas for the push claim -/

lemma push_foldl (records : List ProtoTranscription) :
    ∀ (s : Storage) (sent : List Transcription) (n : Nat),
      records.foldl pushStep (s, sent, n)
        = (insertAll s records, sent ++ records.map decodeWire, n + records.length) := by
  induction records with
  | nil => intro s sent n; simp [insertAll]
  | cons r rest ih =>
    intro s sent n
    rw [List.foldl_cons]
    show rest.foldl pushStep
        (s.insert_transcription (decodeWire r), sent ++ [decodeWire r], n + 1)
      = _
    rw [ih]
    simp [insertAll_cons, List.length_cons]
    omega

lemma push_transcriptions_eq (s : Storage) (records : List ProtoTranscription) :
    push_transcriptions s records
      = (insertAll s records, records.map decodeWire, records.length) := by
  unfold push_transcriptions
  rw [push_foldl]
  simp

lemma insert_mem_self (s : Storage) (t : Transcription) :
    t ∈ (s.insert_transcription t).transcriptions := by
  simp [Storage.insert_transcription]

lemma insert_id_mem (s : Storage) (t : Transcription) (i : String)
    (h : ∃ u ∈ s.transcriptions, u.id = i ∧ u.synced = true) (ht : t.synced = true) :
    ∃ u ∈ (s.insert_transcription t).transcriptions, u.id = i ∧ u.synced = true := by
  by_cases hit : t.id = i
  · exact ⟨t, insert_mem_self s t, hit, ht⟩
  · obtain ⟨u, hu, hui, hus⟩ := h
    refine ⟨u, ?_, hui, hus⟩
    simp only [Storage.insert_transcription, List.mem_append]
    left
    rw [List.mem_filter]
    refine ⟨hu, ?_⟩
    simp only [ne_eq, decide_not, Bool.not_eq_eq_eq_not, Bool.not_true,
      decide_eq_false_iff_not]
    intro hc
    exact hit (hc ▸ hui)

lemma insertAll_id_mem (records : List ProtoTranscription) :
    ∀ (s : Storage) (i : String),
      (∃ u ∈ s.transcriptions, u.id = i ∧ u.synced = true) →
      ∃ u ∈ (insertAll s records).transcriptions, u.id = i ∧ u.synced = true := by
  induction records with
  | nil => intro s i h; exact h
  | cons r rest ih =>
    intro s i h
    rw [insertAll_cons]
    exact ih _ i (insert_id_mem s (decodeWire r) i h rfl)

lemma insertAll_mem_of_mem (records : List ProtoTranscription) :
    ∀ (s : Storage) (p : ProtoTranscription), p ∈ records →
      ∃ u ∈ (insertAll s records).transcriptions, u.id = p.id ∧ u.synced = true := by
  induction records with
  | nil => intro s p hp; cases hp
  | cons r rest ih =>
    intro s p hp
    rcases List.mem_cons.mp hp with h | h
    · subst h
      rw [insertAll_cons]
      exact insertAll_id_mem rest _ p.id ⟨decodeWire p, insert_mem_self s _, rfl, rfl⟩
    · rw [insertAll_cons]
      exact ih _ p h

/-- C4: handling a `PushTranscriptions` stream that completes without error
reports `received` equal to the number of records in the stream, sends
exactly the decoded records to the fan-out channel, decodes every record
with `synced = true` and empty-string `device_id` as absent, and leaves
every received record id present in the store marked synced. -/
theorem push_transcriptions_spec (s : Storage) (records : List ProtoTranscription) :
    (push_transcriptions s records).2.2 = records.length
    ∧ (push_transcriptions s records).2.1 = records.map decodeWire
    ∧ (∀ p : ProtoTranscription, (decodeWire p).synced = true
        ∧ (decodeWire p).memo_device_id
            = (if p.memo_device_id = "" then none else some p.memo_device_id))
    ∧ (∀ p, p ∈ records →
        ∃ u ∈ (push_transcriptions s records).1.transcriptions,
          u.id = p.id ∧ u.synced = true) := by
  rw [push_transcriptions_eq]
  refine ⟨rfl, rfl, fun p => ⟨rfl, rfl⟩, ?_⟩
  intro p hp
  exact insertAll_mem_of_mem records s p hp

/-- Witness for C4 at a concrete stream of one record: the count is 1 and
the record id ends up stored and synced. -/
theorem push_transcriptions_spec_witness :
    (push_transcriptions ⟨[], []⟩ [⟨"a", 1, "t", "n", ""⟩]).2.2 = 1
    ∧ ∃ u ∈ (push_transcriptions ⟨[], []⟩ [⟨"a", 1, "t", "n", ""⟩]).1.transcriptions,
        u.id = "a" ∧ u.synced = true :=
  ⟨(push_transcriptions_spec ⟨[], []⟩ [⟨"a", 1, "t", "n", ""⟩]).1,
   (push_transcriptions_spec ⟨[], []⟩ [⟨"a", 1, "t", "n", ""⟩]).2.2.2 ⟨"a", 1, "t", "n", ""⟩
     (List.mem_singleton.mpr rfl)⟩

/-! ## Helper lemmas for the decoder claims -/

lemma getD_take (l : List Nat) (m i : Nat) (h : i < m) :
    (l.take m).getD i 0 = l.getD i 0 := by
  rw [List.getD_eq_getElem?_getD, List.getD_eq_getElem?_getD, List.getElem?_take, if_pos h]

lemma decodeLoop_succ {D : Type} (step : D → List Nat → D × Option (List Int))
    (k : Nat) (dec : D) (data : List Nat) (offset : Nat) :
    decodeLoop step (k + 1) dec data offset =
      if data.length ≤ offset then (dec, [])
      else if data.getD offset 0 = 0 then decodeLoop step k dec data (offset + 1)
      else if data.length < offset + 1 + data.getD offset 0 then (dec, [])
      else
        ((decodeLoop step k (step dec ((data.drop (offset + 1)).take (data.getD offset 0))).1
            data (offset + 1 + data.getD offset 0)).1,
         (step dec ((data.drop (offset + 1)).take (data.getD offset 0))).2.getD []
           ++ (decodeLoop step k (step dec ((data.drop (offset + 1)).take (data.getD offset 0))).1
                data (offset + 1 + data.getD offset 0)).2) := rfl

lemma bundleFrames_succ (k : Nat) (data : List Nat) (offset : Nat) :
    bundleFrames (k + 1) data offset =
      if data.length ≤ offset then []
      else if data.getD offset 0 = 0 then bundleFrames k data (offset + 1)
      else if data.length < offset + 1 + data.getD offset 0 then []
      else (data.drop (offset + 1)).take (data.getD offset 0)
          :: bundleFrames k data (offset + 1 + data.getD offset 0) := rfl

lemma runFrames_cons {D : Type} (step : D → List Nat → D × Option (List Int))
    (dec : D) (f : List Nat) (fs : List (List Nat)) :
    runFrames step dec (f :: fs) =
      ((runFrames step (step dec f).1 fs).1,
       (step dec f).2.getD [] ++ (runFrames step (step dec f).1 fs).2) := rfl

lemma decodeLoop_eq_runFrames {D : Type} (step : D → List Nat → D × Option (List Int)) :
    ∀ (k : Nat) (dec : D) (data : List Nat) (offset : Nat),
      decodeLoop step k dec data offset = runFrames step dec (bundleFrames k data offset) := by
  intro k
  induction k with
  | zero => intro dec data offset; rfl
  | succ k ih =>
    intro dec data offset
    rw [decodeLoop_succ, bundleFrames_succ]
    by_cases h1 : data.length ≤ offset
    · rw [if_pos h1, if_pos h1]; rfl
    · rw [if_neg h1, if_neg h1]
      by_cases h2 : data.getD offset 0 = 0
      · rw [if_pos h2, if_pos h2, ih]
      · rw [if_neg h2, if_neg h2]
        by_cases h3 : data.length < offset + 1 + data.getD offset 0
        · rw [if_pos h3, if_pos h3]; rfl
        · rw [if_neg h3, if_neg h3, runFrames_cons, ih]

lemma decodeLoop_take {D : Type} (step : D → List Nat → D × Option (List Int)) :
    ∀ (k : Nat) (dec : D) (data : List Nat) (m offset : Nat),
      ∃ t, (decodeLoop step k dec (data.take m) offset).2 ++ t
        = (decodeLoop step k dec data offset).2 := by
  intro k
  induction k with
  | zero => intro dec data m offset; exact ⟨[], rfl⟩
  | succ k ih =>
    intro dec data m offset
    by_cases h1 : (data.take m).length ≤ offset
    · refine ⟨(decodeLoop step (k + 1) dec data offset).2, ?_⟩
      rw [decodeLoop_succ, if_pos h1]
      simp
    · have hom : offset < m := by
        rw [List.length_take] at h1; omega
      have hod : offset < data.length := by
        rw [List.length_take] at h1; omega
      have hgd : (data.take m).getD offset 0 = data.getD offset 0 := getD_take data m offset hom
      rw [decodeLoop_succ, decodeLoop_succ, if_neg h1, if_neg (not_le.mpr hod), hgd]
      by_cases h2 : data.getD offset 0 = 0
      · rw [if_pos h2, if_pos h2]
        exact ih dec data m (offset + 1)
      · rw [if_neg h2, if_neg h2]
        by_cases h3 : (data.take m).length < offset + 1 + data.getD offset 0
        · rw [if_pos h3]
          exact ⟨_, List.nil_append _⟩
        · have h4 : ¬ data.length < offset + 1 + data.getD offset 0 := by
            rw [List.length_take] at h3; omega
          have hfs : data.getD offset 0 ≤ m - (offset + 1) := by
            rw [List.length_take] at h3; omega
          have hfr : ((data.take m).drop (offset + 1)).take (data.getD offset 0)
              = (data.drop (offset + 1)).take (data.getD offset 0) := by
            rw [List.drop_take, List.take_take, inf_eq_left.mpr hfs]
          rw [if_neg h3, if_neg h4, hfr]
          obtain ⟨t, ht⟩ :=
            ih (step dec ((data.drop (offset + 1)).take (data.getD offset 0))).1 data m
              (offset + 1 + data.getD offset 0)
          refine ⟨t, ?_⟩
          rw [List.append_assoc, ht]

lemma opusDecode_ok {D : Type} (step : D → List Nat → D × Option (List Int)) (dec : D)
    (encoded : List Nat) (h2 : 2 ≤ encoded.length) (h1 : 1 ≤ encoded.getD 1 0)
    (h10 : encoded.getD 1 0 ≤ 10) :
    opusDecode step dec encoded
      = .ok (decodeLoop step (encoded.getD 1 0) dec (encoded.drop 1) 1) := by
  have hne : encoded ≠ [] := by
    intro h; rw [h] at h2; simp at h2
  have hlt : ¬ encoded.length < 2 := not_lt.mpr h2
  have hdne : encoded.drop 1 ≠ [] := by
    intro h
    have := congrArg List.length h
    rw [List.length_drop] at this
    simp at this
    omega
  have hN : (encoded.drop 1).getD 0 0 = encoded.getD 1 0 := by
    rw [List.getD_eq_getElem?_getD, List.getD_eq_getElem?_getD, List.getElem?_drop]
  unfold opusDecode
  rw [if_neg hne, if_neg hlt, if_neg hdne, hN, if_neg (by omega)]

/-- C6: for a well-formed bundle the decode is the in-order concatenation
of the per-frame PCM of its successfully decoded frames (`runFrames` over
the extracted frame payloads, stopping at an overrunning frame and skipping
zero-size frames), and the samples decoded from any truncated copy of the
bundle form a prefix of the samples decoded from the full bundle. -/
theorem opus_decode_bundle {D : Type} (step : D → List Nat → D × Option (List Int))
    (dec : D) (encoded : List Nat) (h2 : 2 ≤ encoded.length)
    (h1 : 1 ≤ encoded.getD 1 0) (h10 : encoded.getD 1 0 ≤ 10) :
    opusDecode step dec encoded
      = .ok (runFrames step dec (bundleFrames (encoded.getD 1 0) (encoded.drop 1) 1))
    ∧ ∀ m, ∃ t, decodeSamples step dec (encoded.take m) ++ t
        = decodeSamples step dec encoded := by
  constructor
  · rw [opusDecode_ok step dec encoded h2 h1 h10, decodeLoop_eq_runFrames]
  · intro m
    by_cases hm : m < 2
    · refine ⟨decodeSamples step dec encoded, ?_⟩
      have hlen : (encoded.take m).length < 2 := by
        rw [List.length_take]; omega
      have hL : decodeSamples step dec (encoded.take m) = [] := by
        unfold decodeSamples opusDecode
        by_cases hz : encoded.take m = []
        · rw [if_pos hz]
        · rw [if_neg hz, if_pos hlen]
      rw [hL, List.nil_append]
    · push_neg at hm
      have hlen : 2 ≤ (encoded.take m).length := by
        rw [List.length_take]; omega
      have hgd : (encoded.take m).getD 1 0 = encoded.getD 1 0 := getD_take encoded m 1 (by omega)
      have hdt : (encoded.take m).drop 1 = (encoded.drop 1).take (m - 1) := List.drop_take m 1 encoded
      obtain ⟨t, ht⟩ := decodeLoop_take step (encoded.getD 1 0) dec (encoded.drop 1) (m - 1) 1
      refine ⟨t, ?_⟩
      unfold decodeSamples
      rw [opusDecode_ok step dec encoded h2 h1 h10,
        opusDecode_ok step dec (encoded.take m) hlen (by rw [hgd]; exact h1) (by rw [hgd]; exact h10),
        hgd, hdt]
      exact ht

/-- The per-frame decoder used by the concrete witnesses: a stateless stand-in
that decodes a frame payload to its bytes read as samples. -/
def echoStep : Unit → List Nat → Unit × Option (List Int) :=
  fun u f => (u, some (f.map Int.ofNat))

/-- Witness for C6 on the S1/S2 scenario bundle `[0,2,3,7,7,7,2,8,8]`:
the decode equals the frame-wise run, and the 5-byte truncation decodes to
a prefix of the full decode. -/
theorem opus_decode_bundle_witness :
    opusDecode echoStep () [0, 2, 3, 7, 7, 7, 2, 8, 8]
      = .ok (runFrames echoStep ()
          (bundleFrames (([0, 2, 3, 7, 7, 7, 2, 8, 8] : List Nat).getD 1 0)
            (([0, 2, 3, 7, 7, 7, 2, 8, 8] : List Nat).drop 1) 1))
    ∧ ∃ t, decodeSamples echoStep () (([0, 2, 3, 7, 7, 7, 2, 8, 8] : List Nat).take 5) ++ t
        = decodeSamples echoStep () [0, 2, 3, 7, 7, 7, 2, 8, 8] :=
  ⟨(opus_decode_bundle echoStep () [0, 2, 3, 7, 7, 7, 2, 8, 8]
      (by decide) (by decide) (by decide)).1,
   (opus_decode_bundle echoStep () [0, 2, 3, 7, 7, 7, 2, 8, 8]
      (by decide) (by decide) (by decide)).2 5⟩

/-- C7: for an empty input, an input shorter than 2 bytes, or a frame-count
byte of 0 or more than 10, the decoder returns `Ok` with an empty sample
vector and never an error. -/
theorem opus_decode_degenerate {D : Type} (step : D → List Nat → D × Option (List Int))
    (dec : D) (encoded : List Nat)
    (h : encoded = [] ∨ encoded.length < 2
        ∨ encoded.getD 1 0 = 0 ∨ 10 < encoded.getD 1 0) :
    opusDecode step dec encoded = .ok (dec, []) := by
  unfold opusDecode
  by_cases hz : encoded = []
  · rw [if_pos hz]
  · rw [if_neg hz]
    by_cases hlt : encoded.length < 2
    · rw [if_pos hlt]
    · rw [if_neg hlt]
      have hdne : encoded.drop 1 ≠ [] := by
        intro hd
        have := congrArg List.length hd
        rw [List.length_drop] at this
        simp at this
        omega
      rw [if_neg hdne]
      have hN : (encoded.drop 1).getD 0 0 = encoded.getD 1 0 := by
        rw [List.getD_eq_getElem?_getD, List.getD_eq_getElem?_getD, List.getElem?_drop]
      rw [hN]
      rcases h with h | h | h | h
      · exact absurd h hz
      · exact absurd h hlt
      · rw [if_pos (Or.inl h)]
      · rw [if_pos (Or.inr h)]

/-- Witness for C7 on the S3 scenario: a frame count of 255 yields `Ok`
with no samples. -/
theorem opus_decode_degenerate_witness :
    opusDecode echoStep () [0, 255, 1, 2, 3] = .ok ((), []) :=
  opus_decode_degenerate echoStep () [0, 255, 1, 2, 3]
    (Or.inr (Or.inr (Or.inr (by decide))))

end MemoNode
